import Mathlib

/-!
Verification of the `go-mcp-rest` server generator
(`cmd/mcp-rest-server-gen`, embedded from `src/unnamed/part_001`).

The generator loads an OpenAPI document, extracts a table of operations
(`processOperation`, an id-keyed Go map), and synthesizes a single-file MCP
bridge program (`generateMCPServer`), emitting one `RegisterTool` statement
per table entry.  The embedding below models the parsed document, the
extraction pass, and the synthesized program shape; Go map iteration order
(which Go leaves unspecified) is made an explicit parameter of the
synthesis stage.
-/

namespace GoMcpRest

/-- An operation definition from the parsed OpenAPI document
(`openapi3.Operation`), restricted to the fields the generator reads:
`OperationID`, `Summary`, `Description` and `RequestBody`.  In the Go
library `RequestBody` is a `*RequestBodyRef` whose `Value` is again a
pointer; both pointer levels are modelled by `Option`, the payload itself
being irrelevant to the generator. -/
structure Operation where
  operationID : String
  summary : String
  description : String
  requestBody : Option (Option Unit)
  deriving DecidableEq, Repr

/-- A path item from the parsed document (`openapi3.PathItem`): one optional
operation definition per HTTP method.  The Go type also carries `Trace` and
`Connect` slots, which `generateMCPServer` never inspects; they are kept
here so that this can be proved. -/
structure PathItem where
  get : Option Operation := none
  post : Option Operation := none
  put : Option Operation := none
  delete : Option Operation := none
  patch : Option Operation := none
  head : Option Operation := none
  options : Option Operation := none
  trace : Option Operation := none
  connect : Option Operation := none
  deriving DecidableEq, Repr

/-- `OperationInfo` (part_001 lines 30-36): the normalized record the
extractor stores per operation. -/
structure OperationInfo where
  ID : String
  Summary : String
  Description : String
  ParameterType : String
  HasRequestBody : Bool
  deriving DecidableEq, Repr

/-- The generator's configuration record (the `CLI` struct, part_001
lines 18-27). -/
structure CLIConfig where
  Spec : String
  Output : String
  Package : String
  ClientPackage : String
  ClientImport : String
  ServerURL : String
  UsernameEnv : String
  PasswordEnv : String
  deriving DecidableEq, Repr

/-- The default configuration values from the `CLI` struct tags. -/
def defaultCLI : CLIConfig :=
  { Spec := "https://converter.swagger.io/api/convert"
    Output := "./generated/main.go"
    Package := "main"
    ClientPackage := "api"
    ClientImport := "github.com/renato0307/go-mcp-rest/generated/api"
    ServerURL := "https://eng-test-us-01-dev.outsystems.app/MCPBackend/rest/Backend"
    UsernameEnv := "API_USERNAME"
    PasswordEnv := "API_PASSWORD" }

/-- The operation table: Go's `map[string]OperationInfo`, modelled as an
association list whose keys are kept unique (`mapInsert` overwrites). -/
abbrev Table := List (String × OperationInfo)

/-- Membership test of a key, as Go's `_, ok := m[k]`. -/
def mapHasKey (ops : Table) (k : String) : Bool :=
  ops.any (fun p => p.1 == k)

/-- Go map assignment `m[k] = v`: overwrite the entry if the key is
present, append it otherwise. -/
def mapInsert (ops : Table) (k : String) (v : OperationInfo) : Table :=
  if mapHasKey ops k then
    ops.map (fun p => if p.1 == k then (k, v) else p)
  else
    ops ++ [(k, v)]

/-- Go map read `m[k]`. -/
def mapLookup (ops : Table) (k : String) : Option OperationInfo :=
  (ops.find? (fun p => p.1 == k)).map Prod.snd

/-- The keys of the table. -/
def mapKeys (ops : Table) : List String :=
  ops.map Prod.fst

/-- The `OperationInfo` record built by `processOperation` (part_001
lines 290-314) for a usable operation definition: the `Params` /
`JSONRequestBody` parameter-type fork, and the summary/description
fallback chain. -/
def deriveInfo (path method : String) (op : Operation) : OperationInfo :=
  let hasRequestBody :=
    match op.requestBody with
    | some (some _) => true
    | _ => false
  let paramType :=
    if hasRequestBody then op.operationID ++ "JSONRequestBody"
    else op.operationID ++ "Params"
  let summary := if op.summary == "" then method ++ " " ++ path else op.summary
  let description := if op.description == "" then summary else op.description
  { ID := op.operationID
    Summary := summary
    Description := description
    ParameterType := paramType
    HasRequestBody := hasRequestBody }

/-- `processOperation` (part_001 lines 285-315): skip a missing definition
or an empty operation id, otherwise store the derived record under the id. -/
def processOperation (path method : String) (operation : Option Operation)
    (operations : Table) : Table :=
  match operation with
  | none => operations
  | some op =>
    if op.operationID == "" then operations
    else mapInsert operations op.operationID (deriveInfo path method op)

/-- The seven method slots `generateMCPServer` inspects on a path item,
in the order of the calls at part_001 lines 154-160. -/
def methodSlots (item : PathItem) : List (String × Option Operation) :=
  [("GET", item.get), ("POST", item.post), ("PUT", item.put),
   ("DELETE", item.delete), ("PATCH", item.patch), ("HEAD", item.head),
   ("OPTIONS", item.options)]

/-- The seven sequential `processOperation` calls for one path
(part_001 lines 154-160). -/
def processPathItem (path : String) (item : PathItem) (ops : Table) : Table :=
  let ops := processOperation path "GET" item.get ops
  let ops := processOperation path "POST" item.post ops
  let ops := processOperation path "PUT" item.put ops
  let ops := processOperation path "DELETE" item.delete ops
  let ops := processOperation path "PATCH" item.patch ops
  let ops := processOperation path "HEAD" item.head ops
  processOperation path "OPTIONS" item.options ops

/-- The extraction loop of `generateMCPServer` (part_001 lines 144-161):
fold the per-path processing over the document's path entries, starting
from the empty table.  The parsed document is given as its list of
path entries in iteration order. -/
def extractOperations (paths : List (String × PathItem)) : Table :=
  paths.foldl (fun ops p => processPathItem p.1 p.2 ops) []

/-- Whether the call argument is passed by value (`arguments`) or by
address (`&arguments`) at the generated call site (part_001
lines 225-228). -/
inductive ArgPass where
  | byValue
  | byRef
  deriving DecidableEq, Repr

/-- One synthesized `server.RegisterTool` statement (part_001
lines 230-259): the tool name and help-text literals, the handler's
argument type and how it is passed to the REST call, the name of the
invoked client method, and the two error-format literals of the handler
body. -/
structure Registration where
  toolName : String
  helpText : String
  paramType : String
  argPass : ArgPass
  callMethod : String
  transportErrFmt : String
  statusErrFmt : String
  deriving DecidableEq, Repr

/-- The registration statement synthesized for one table entry, read off
the loop body at part_001 lines 224-259. -/
def registrationFor (op : OperationInfo) : Registration :=
  { toolName := op.ID
    helpText := op.Description
    paramType := op.ParameterType
    argPass := if op.HasRequestBody then ArgPass.byValue else ArgPass.byRef
    callMethod := op.ID ++ "WithResponse"
    transportErrFmt := "error calling " ++ op.ID ++ ": %v"
    statusErrFmt := "error on " ++ op.ID ++ ": %s" }

/-- The synthesized single-file program, at the granularity the claims
need: the package name, the client import path, and the ordered list of
registration statements in the generated `main`. -/
structure GeneratedFile where
  pkgName : String
  clientImport : String
  registrations : List Registration
  deriving DecidableEq, Repr

/-- The synthesis stage (part_001 lines 170-278): one registration
statement per operation, in the order the Go `for _, op := range
operations` loop visits the table.  Go does not fix that order, so it is
supplied here as the list `opsIter`. -/
def synthesize (cfg : CLIConfig) (opsIter : List OperationInfo) : GeneratedFile :=
  { pkgName := cfg.Package
    clientImport := cfg.ClientImport
    registrations := opsIter.map registrationFor }

/-- Serialization of `ArgPass` as it appears in the generated source. -/
def ArgPass.render : ArgPass → String
  | ArgPass.byValue => "arguments"
  | ArgPass.byRef => "&arguments"

/-- Serialization of one registration statement: every field of the
statement appears in the emitted text, so two statements with any
differing field serialize differently. -/
def Registration.render (r : Registration) : String :=
  "err = server.RegisterTool(" ++ r.toolName ++ ", " ++ r.helpText ++
    ", func(arguments " ++ r.paramType ++ ") ... " ++ r.callMethod ++
    "(context.TODO(), " ++ r.argPass.render ++ ") ... " ++
    r.transportErrFmt ++ " ... " ++ r.statusErrFmt ++ ")"

/-- Serialization of the generated file to source text (`f.Save`,
part_001 line 281, renders the file before writing). -/
def renderFile (f : GeneratedFile) : String :=
  "package " ++ f.pkgName ++ "\nimport " ++ f.clientImport ++ "\n" ++
    String.intercalate "\n" (f.registrations.map Registration.render)

/-- `generateMCPServer` (part_001 lines 136-282) after the document has
been loaded and parsed: extract the operation table, fail when it is
empty (lines 163-165), otherwise synthesize the file.  `mapOrder` models
Go's unspecified map iteration order at line 224; an `Except.error`
result means the function returns before `f.Save` runs, so no file is
written. -/
def generateMCPServer (cfg : CLIConfig) (doc : List (String × PathItem))
    (mapOrder : Table → List OperationInfo) : Except String GeneratedFile :=
  let operations := extractOperations doc
  if operations.length == 0 then
    Except.error "no valid operations found in the OpenAPI spec"
  else
    Except.ok (synthesize cfg (mapOrder operations))

/-- The result of the generated `restClient.<id>WithResponse` call, as the
generated handler observes it: either a transport error or a response
exposing `StatusCode()`, `Status()` and `Body`. -/
inductive RestResult where
  | transportError (errText : String)
  | response (statusCode : Nat) (statusText : String) (body : String)
  deriving DecidableEq, Repr

/-- What a generated handler returns: an error result or a textual tool
result. -/
inductive ToolOutcome where
  | errorResult (msg : String)
  | textResult (text : String)
  deriving DecidableEq, Repr

/-- Semantics of the handler body synthesized for operation `id`
(part_001 lines 240-258): on transport error return
`fmt.Errorf("error calling <id>: %v", err)`; if `resp.StatusCode() != 200`
return `fmt.Errorf("error on <id>: %s", resp.Status())`; otherwise wrap
`string(resp.Body)` as the textual tool result.  The `%v`/`%s` verbs are
applied to the error text and status text. -/
def handlerBody (id : String) : RestResult → ToolOutcome
  | RestResult.transportError errText =>
      ToolOutcome.errorResult ("error calling " ++ id ++ ": " ++ errText)
  | RestResult.response statusCode statusText body =>
      if statusCode != 200 then
        ToolOutcome.errorResult ("error on " ++ id ++ ": " ++ statusText)
      else
        ToolOutcome.textResult body

/-- Whether an HTTP status code is a success status (2xx class). -/
def successStatus (code : Nat) : Bool :=
  200 ≤ code && code < 300

/-- Modelled from the spec: the handler behaviour as §4.4 words it — an
error result on transport error, an error result on a *non-success* HTTP
status, and the raw payload otherwise.  Stated for comparison with
`handlerBody`, which is what the generator actually emits. -/
def specHandlerBody (id : String) : RestResult → ToolOutcome
  | RestResult.transportError errText =>
      ToolOutcome.errorResult ("error calling " ++ id ++ ": " ++ errText)
  | RestResult.response statusCode statusText body =>
      if !successStatus statusCode then
        ToolOutcome.errorResult ("error on " ++ id ++ ": " ++ statusText)
      else
        ToolOutcome.textResult body

/-- Whether a method slot holds an operation definition with identifier
`id`. -/
def slotHasId (id : String) (s : String × Option Operation) : Bool :=
  match s.2 with
  | some op => op.operationID == id
  | none => false

/-- Whether some operation definition with identifier `id` is present in
the document under one of the seven supported method slots. -/
def idPresent (paths : List (String × PathItem)) (id : String) : Bool :=
  paths.any (fun p => (methodSlots p.2).any (slotHasId id))

/-- The document's path/method slots flattened into the generator's
processing order: paths in document iteration order, the seven method
slots of each path in the fixed order of part_001 lines 154-160. -/
def docSeq (paths : List (String × PathItem)) :
    List (String × String × Option Operation) :=
  paths.flatMap (fun p => (methodSlots p.2).map (fun s => (p.1, s.1, s.2)))

/-- The processing-order subsequence of slots holding an operation with
identifier `id`, together with their operation definitions. -/
def usableOps (id : String) (seq : List (String × String × Option Operation)) :
    List (String × String × Operation) :=
  seq.filterMap (fun t =>
    match t.2.2 with
    | some op => if op.operationID == id then some (t.1, t.2.1, op) else none
    | none => none)

/-- The record the table ends up holding for identifier `id`: the one
derived from the last definition with that identifier in processing
order, if any. -/
def lastWrite (id : String) (seq : List (String × String × Option Operation)) :
    Option OperationInfo :=
  (usableOps id seq).getLast?.map (fun t => deriveInfo t.1 t.2.1 t.2.2)

/-! ### Basic lemmas about the Go-map model -/

theorem mapHasKey_iff_mem (ops : Table) (k : String) :
    mapHasKey ops k = true ↔ k ∈ mapKeys ops := by
  simp only [mapHasKey, List.any_eq_true, mapKeys, List.mem_map, beq_iff_eq]

theorem find_replace_self (ops : Table) (k : String) (v : OperationInfo)
    (h : mapHasKey ops k = true) :
    (ops.map (fun p => if p.1 == k then (k, v) else p)).find?
      (fun p => p.1 == k) = some (k, v) := by
  induction ops with
  | nil => simp [mapHasKey] at h
  | cons p ps ih =>
    rw [List.map_cons]
    by_cases hp : (p.1 == k) = true
    · rw [if_pos hp]
      exact List.find?_cons_of_pos _ (by simp)
    · have hps : mapHasKey ps k = true := by
        simp only [mapHasKey, List.any_cons, hp, Bool.false_or] at h
        exact h
      rw [if_neg hp, List.find?_cons_of_neg _ (by simpa using hp)]
      exact ih hps

theorem find_replace_ne (ops : Table) (k k' : String) (v : OperationInfo)
    (h : (k == k') = false) :
    (ops.map (fun p => if p.1 == k then (k, v) else p)).find?
      (fun p => p.1 == k') = ops.find? (fun p => p.1 == k') := by
  induction ops with
  | nil => simp
  | cons p ps ih =>
    rw [List.map_cons]
    by_cases hp : (p.1 == k) = true
    · have hpk : p.1 = k := eq_of_beq hp
      have h2 : (p.1 == k') = false := by rw [hpk]; exact h
      rw [if_pos hp]
      simp only [List.find?_cons, h, h2]
      exact ih
    · rw [if_neg hp]
      by_cases hp' : (p.1 == k') = true
      · simp only [List.find?_cons, hp']
      · have hf' : (p.1 == k') = false := by simpa using hp'
        simp only [List.find?_cons, hf']
        exact ih

theorem find_of_not_hasKey (ops : Table) (k : String)
    (h : mapHasKey ops k = false) :
    ops.find? (fun p => p.1 == k) = none := by
  rw [List.find?_eq_none]
  intro p hp hpk
  have : mapHasKey ops k = true := by
    simp only [mapHasKey, List.any_eq_true]
    exact ⟨p, hp, hpk⟩
  simp [this] at h

theorem mapLookup_insert_self (ops : Table) (k : String) (v : OperationInfo) :
    mapLookup (mapInsert ops k v) k = some v := by
  unfold mapInsert
  by_cases h : mapHasKey ops k = true
  · rw [if_pos h]
    unfold mapLookup
    rw [find_replace_self ops k v h]
    rfl
  · have hf : mapHasKey ops k = false := by simpa using h
    rw [if_neg h]
    unfold mapLookup
    rw [List.find?_append, find_of_not_hasKey ops k hf, Option.none_or,
      List.find?_cons_of_pos _ (by simp)]
    rfl

theorem mapLookup_insert_ne (ops : Table) (k k' : String) (v : OperationInfo)
    (h : k' ≠ k) :
    mapLookup (mapInsert ops k v) k' = mapLookup ops k' := by
  have hb : (k == k') = false := by
    simp only [beq_eq_false_iff_ne, ne_eq]
    exact fun hkk => h hkk.symm
  unfold mapInsert
  by_cases hk : mapHasKey ops k = true
  · rw [if_pos hk]
    unfold mapLookup
    rw [find_replace_ne ops k k' v hb]
  · rw [if_neg hk]
    unfold mapLookup
    rw [List.find?_append]
    have hone : List.find? (fun p => p.1 == k') [(k, v)] = none := by
      simp [List.find?_cons_of_neg, hb]
    rw [hone, Option.or_none]

theorem mem_mapInsert (ops : Table) (k : String) (v : OperationInfo) :
    ∀ p ∈ mapInsert ops k v, p = (k, v) ∨ p ∈ ops := by
  intro p hp
  unfold mapInsert at hp
  by_cases h : mapHasKey ops k = true
  · rw [if_pos h] at hp
    rcases List.mem_map.mp hp with ⟨q, hq, hfq⟩
    by_cases hqk : (q.1 == k) = true
    · left; rw [← hfq, if_pos hqk]
    · right; rw [← hfq, if_neg hqk]; exact hq
  · have hf : mapHasKey ops k = false := by simpa using h
    rw [hf] at hp
    simp only [Bool.false_eq_true, if_neg, List.mem_append, not_false_eq_true,
      List.mem_singleton] at hp
    tauto

theorem mapKeys_insert_of_hasKey (ops : Table) (k : String) (v : OperationInfo)
    (h : mapHasKey ops k = true) :
    mapKeys (mapInsert ops k v) = mapKeys ops := by
  unfold mapInsert mapKeys
  rw [if_pos h, List.map_map]
  apply List.map_congr_left
  intro p _
  show (if p.1 == k then (k, v) else p).1 = p.1
  by_cases hp : (p.1 == k) = true
  · rw [if_pos hp]
    exact (eq_of_beq hp).symm
  · rw [if_neg hp]

theorem mapKeys_insert_of_not_hasKey (ops : Table) (k : String)
    (v : OperationInfo) (h : mapHasKey ops k = false) :
    mapKeys (mapInsert ops k v) = mapKeys ops ++ [k] := by
  unfold mapInsert mapKeys
  simp [h]

theorem not_mem_keys_of_not_hasKey (ops : Table) (k : String)
    (h : mapHasKey ops k = false) : k ∉ mapKeys ops := by
  intro hk
  rcases List.mem_map.mp hk with ⟨p, hp, hpk⟩
  have : mapHasKey ops k = true := by
    simp only [mapHasKey, List.any_eq_true]
    exact ⟨p, hp, by simp [hpk]⟩
  simp [this] at h

theorem keysNodup_insert (ops : Table) (k : String) (v : OperationInfo)
    (h : (mapKeys ops).Nodup) : (mapKeys (mapInsert ops k v)).Nodup := by
  by_cases hk : mapHasKey ops k = true
  · rw [mapKeys_insert_of_hasKey ops k v hk]; exact h
  · have hf : mapHasKey ops k = false := by simpa using hk
    rw [mapKeys_insert_of_not_hasKey ops k v hf]
    exact List.Nodup.append h (List.nodup_singleton k)
      (fun a ha hb => not_mem_keys_of_not_hasKey ops k hf
        ((List.mem_singleton.mp hb) ▸ ha))

theorem mapHasKey_insert_self (ops : Table) (k : String) (v : OperationInfo) :
    mapHasKey (mapInsert ops k v) k = true := by
  rw [mapHasKey_iff_mem]
  by_cases h : mapHasKey ops k = true
  · rw [mapKeys_insert_of_hasKey ops k v h]
    exact (mapHasKey_iff_mem ops k).mp h
  · have hf : mapHasKey ops k = false := by simpa using h
    rw [mapKeys_insert_of_not_hasKey ops k v hf]
    simp

theorem mapHasKey_insert_mono (ops : Table) (k k' : String) (v : OperationInfo)
    (h : mapHasKey ops k' = true) : mapHasKey (mapInsert ops k v) k' = true := by
  rw [mapHasKey_iff_mem] at h ⊢
  by_cases hk : mapHasKey ops k = true
  · rw [mapKeys_insert_of_hasKey ops k v hk]
    exact h
  · have hf : mapHasKey ops k = false := by simpa using hk
    rw [mapKeys_insert_of_not_hasKey ops k v hf]
    exact List.mem_append_left _ h

/-! ### Lemmas about one extraction step -/

theorem processOperation_some (path method : String) (op : Operation)
    (ops : Table) (h : op.operationID ≠ "") :
    processOperation path method (some op) ops
      = mapInsert ops op.operationID (deriveInfo path method op) := by
  simp only [processOperation]
  rw [if_neg (by simpa using h)]

theorem fallback_summary_ne_empty (path method : String) :
    method ++ " " ++ path ≠ "" := by
  intro he
  have hlen : (method ++ " " ++ path).length = 0 := by rw [he]; rfl
  rw [String.length_append, String.length_append] at hlen
  have hsp : String.length " " = 1 := rfl
  rw [hsp] at hlen
  omega

/-- The invariant of a stored record: its `ID` equals its table key and is
non-empty, summary and description are non-empty, and the parameter type
is the `ID`-prefixed name selected by `HasRequestBody`. -/
def infoInv (k : String) (info : OperationInfo) : Prop :=
  info.ID = k ∧ info.ID ≠ "" ∧ info.Summary ≠ "" ∧ info.Description ≠ "" ∧
    info.ParameterType =
      (if info.HasRequestBody then info.ID ++ "JSONRequestBody"
       else info.ID ++ "Params")

/-- The table invariant: every entry satisfies `infoInv`. -/
def TableInv (ops : Table) : Prop :=
  ∀ k info, (k, info) ∈ ops → infoInv k info

theorem infoInv_deriveInfo (path method : String) (op : Operation)
    (h : op.operationID ≠ "") :
    infoInv op.operationID (deriveInfo path method op) := by
  have hsum : (if op.summary == "" then method ++ " " ++ path
      else op.summary) ≠ "" := by
    by_cases hs : (op.summary == "") = true
    · rw [if_pos hs]; exact fallback_summary_ne_empty path method
    · rw [if_neg hs]; simpa using hs
  have hdesc : (if op.description == ""
      then (if op.summary == "" then method ++ " " ++ path else op.summary)
      else op.description) ≠ "" := by
    by_cases hd : (op.description == "") = true
    · rw [if_pos hd]; exact hsum
    · rw [if_neg hd]; simpa using hd
  exact ⟨rfl, h, hsum, hdesc, rfl⟩

theorem TableInv_insert (ops : Table) (k : String) (v : OperationInfo)
    (hops : TableInv ops) (hv : infoInv k v) : TableInv (mapInsert ops k v) := by
  intro k' info hmem
  rcases mem_mapInsert ops k v (k', info) hmem with heq | hin
  · cases heq
    exact hv
  · exact hops k' info hin

theorem TableInv_processOperation (path method : String) (o : Option Operation)
    (ops : Table) (hops : TableInv ops) :
    TableInv (processOperation path method o ops) := by
  cases o with
  | none => exact hops
  | some op =>
    simp only [processOperation]
    by_cases hid : (op.operationID == "") = true
    · rw [if_pos hid]; exact hops
    · rw [if_neg hid]
      exact TableInv_insert ops op.operationID _ hops
        (infoInv_deriveInfo path method op (by simpa using hid))

theorem keysNodup_processOperation (path method : String) (o : Option Operation)
    (ops : Table) (h : (mapKeys ops).Nodup) :
    (mapKeys (processOperation path method o ops)).Nodup := by
  cases o with
  | none => exact h
  | some op =>
    simp only [processOperation]
    by_cases hid : (op.operationID == "") = true
    · rw [if_pos hid]; exact h
    · rw [if_neg hid]
      exact keysNodup_insert ops op.operationID _ h

theorem mapHasKey_processOperation_mono (path method : String)
    (o : Option Operation) (ops : Table) (k : String)
    (h : mapHasKey ops k = true) :
    mapHasKey (processOperation path method o ops) k = true := by
  cases o with
  | none => exact h
  | some op =>
    simp only [processOperation]
    by_cases hid : (op.operationID == "") = true
    · rw [if_pos hid]; exact h
    · rw [if_neg hid]
      exact mapHasKey_insert_mono ops op.operationID k _ h

/-! ### Lemmas about the folds over method slots and paths -/

theorem processPathItem_eq_foldl (path : String) (item : PathItem)
    (ops : Table) :
    processPathItem path item ops =
      (methodSlots item).foldl
        (fun acc s => processOperation path s.1 s.2 acc) ops := rfl

theorem TableInv_foldl_slots (path : String)
    (slots : List (String × Option Operation)) (ops : Table)
    (h : TableInv ops) :
    TableInv (slots.foldl (fun acc s => processOperation path s.1 s.2 acc) ops) := by
  induction slots generalizing ops with
  | nil => exact h
  | cons s ss ih => exact ih _ (TableInv_processOperation path s.1 s.2 ops h)

theorem keysNodup_foldl_slots (path : String)
    (slots : List (String × Option Operation)) (ops : Table)
    (h : (mapKeys ops).Nodup) :
    (mapKeys (slots.foldl
      (fun acc s => processOperation path s.1 s.2 acc) ops)).Nodup := by
  induction slots generalizing ops with
  | nil => exact h
  | cons s ss ih => exact ih _ (keysNodup_processOperation path s.1 s.2 ops h)

theorem mapHasKey_foldl_slots_mono (path : String)
    (slots : List (String × Option Operation)) (ops : Table) (k : String)
    (h : mapHasKey ops k = true) :
    mapHasKey (slots.foldl
      (fun acc s => processOperation path s.1 s.2 acc) ops) k = true := by
  induction slots generalizing ops with
  | nil => exact h
  | cons s ss ih => exact ih _ (mapHasKey_processOperation_mono path s.1 s.2 ops k h)

theorem TableInv_extract (paths : List (String × PathItem)) :
    TableInv (extractOperations paths) := by
  have hgen : ∀ init : Table, TableInv init →
      TableInv (paths.foldl (fun ops p => processPathItem p.1 p.2 ops) init) := by
    induction paths with
    | nil => exact fun init h => h
    | cons p ps ih =>
      intro init h
      exact ih _ (by
        show TableInv (processPathItem p.1 p.2 init)
        rw [processPathItem_eq_foldl]
        exact TableInv_foldl_slots p.1 (methodSlots p.2) init h)
  exact hgen [] (fun k info h => absurd h (List.not_mem_nil _))

theorem keysNodup_extract (paths : List (String × PathItem)) :
    (mapKeys (extractOperations paths)).Nodup := by
  have hgen : ∀ init : Table, (mapKeys init).Nodup →
      (mapKeys (paths.foldl
        (fun ops p => processPathItem p.1 p.2 ops) init)).Nodup := by
    induction paths with
    | nil => exact fun init h => h
    | cons p ps ih =>
      intro init h
      exact ih _ (by
        show (mapKeys (processPathItem p.1 p.2 init)).Nodup
        rw [processPathItem_eq_foldl]
        exact keysNodup_foldl_slots p.1 (methodSlots p.2) init h)
  exact hgen [] List.nodup_nil

/-! ### Presence, uniqueness and last-write lemmas -/

theorem mapHasKey_of_lookup_some (ops : Table) (k : String) (v : OperationInfo)
    (h : mapLookup ops k = some v) : mapHasKey ops k = true := by
  induction ops with
  | nil => simp [mapLookup] at h
  | cons p ps ih =>
    unfold mapLookup at h
    by_cases hp : (p.1 == k) = true
    · simp [mapHasKey, hp]
    · have hf : (p.1 == k) = false := by simpa using hp
      simp only [List.find?_cons, hf] at h
      simp only [mapHasKey, List.any_cons, hf, Bool.false_or]
      exact ih h

theorem mapHasKey_foldl_slots_present (path : String)
    (slots : List (String × Option Operation)) (init : Table) (id : String)
    (hne : id ≠ "")
    (h : slots.any (slotHasId id) = true ∨ mapHasKey init id = true) :
    mapHasKey (slots.foldl
      (fun acc s => processOperation path s.1 s.2 acc) init) id = true := by
  induction slots generalizing init with
  | nil =>
    rcases h with h | h
    · simp at h
    · exact h
  | cons s ss ih =>
    rcases h with h | h
    · rw [List.any_cons] at h
      by_cases hs : slotHasId id s = true
      · apply ih
        right
        obtain ⟨m, o⟩ := s
        cases o with
        | none => simp [slotHasId] at hs
        | some op =>
          have hopid : op.operationID = id := by
            simp only [slotHasId] at hs
            exact eq_of_beq hs
          show mapHasKey (processOperation path m (some op) init) id = true
          rw [processOperation_some path m op init (by rw [hopid]; exact hne),
            hopid]
          exact mapHasKey_insert_self init id _
      · have hss : ss.any (slotHasId id) = true := by
          rcases Bool.or_eq_true_iff.mp h with h1 | h1
          · exact absurd h1 hs
          · exact h1
        exact ih _ (Or.inl hss)
    · exact ih _ (Or.inr (mapHasKey_processOperation_mono path s.1 s.2 init id h))

theorem mapHasKey_foldl_paths_present (id : String) (hne : id ≠ "")
    (paths : List (String × PathItem)) :
    ∀ init : Table,
      (paths.any (fun p => (methodSlots p.2).any (slotHasId id)) = true ∨
        mapHasKey init id = true) →
      mapHasKey (paths.foldl
        (fun ops p => processPathItem p.1 p.2 ops) init) id = true := by
  induction paths with
  | nil =>
    rintro init (h1 | h1)
    · simp at h1
    · exact h1
  | cons p ps ih =>
    rintro init (h1 | h1)
    · rw [List.any_cons] at h1
      by_cases hp : (methodSlots p.2).any (slotHasId id) = true
      · apply ih
        right
        show mapHasKey (processPathItem p.1 p.2 init) id = true
        rw [processPathItem_eq_foldl]
        exact mapHasKey_foldl_slots_present p.1 _ init id hne (Or.inl hp)
      · have hps : ps.any (fun q => (methodSlots q.2).any (slotHasId id)) = true := by
          rcases Bool.or_eq_true_iff.mp h1 with h2 | h2
          · exact absurd h2 hp
          · exact h2
        exact ih _ (Or.inl hps)
    · apply ih
      right
      show mapHasKey (processPathItem p.1 p.2 init) id = true
      rw [processPathItem_eq_foldl]
      exact mapHasKey_foldl_slots_present p.1 _ init id hne (Or.inr h1)

theorem mapHasKey_extract_present (paths : List (String × PathItem))
    (id : String) (hne : id ≠ "") (h : idPresent paths id = true) :
    mapHasKey (extractOperations paths) id = true :=
  mapHasKey_foldl_paths_present id hne paths []
    (Or.inl (by simpa [idPresent] using h))

theorem countP_key_eq_one (ops : Table) (k : String)
    (hnd : (mapKeys ops).Nodup) (hk : mapHasKey ops k = true) :
    ops.countP (fun p => p.1 == k) = 1 := by
  induction ops with
  | nil => simp [mapHasKey] at hk
  | cons p ps ih =>
    have hnd' : (mapKeys ps).Nodup ∧ p.1 ∉ mapKeys ps := by
      rw [mapKeys, List.map_cons, List.nodup_cons] at hnd
      exact ⟨hnd.2, hnd.1⟩
    by_cases hp : (p.1 == k) = true
    · have hzero : ps.countP (fun q => q.1 == k) = 0 := by
        rw [List.countP_eq_zero]
        intro q hq hqk
        have hkmem : k ∈ mapKeys ps := (mapHasKey_iff_mem ps k).mp (by
          simp only [mapHasKey, List.any_eq_true]
          exact ⟨q, hq, hqk⟩)
        rw [← eq_of_beq hp] at hkmem
        exact hnd'.2 hkmem
      simp [List.countP_cons, hp, hzero]
    · have hf : (p.1 == k) = false := by simpa using hp
      have hps : mapHasKey ps k = true := by
        simp only [mapHasKey, List.any_cons, hf, Bool.false_or] at hk
        exact hk
      simp [List.countP_cons, hf, ih hnd'.1 hps]

theorem extract_eq_docSeq_foldl (paths : List (String × PathItem)) :
    extractOperations paths =
      (docSeq paths).foldl
        (fun ops t => processOperation t.1 t.2.1 t.2.2 ops) [] := by
  have hgen : ∀ init : Table,
      paths.foldl (fun ops p => processPathItem p.1 p.2 ops) init
        = (docSeq paths).foldl
            (fun ops t => processOperation t.1 t.2.1 t.2.2 ops) init := by
    induction paths with
    | nil => intro init; rfl
    | cons p ps ih =>
      intro init
      rw [List.foldl_cons]
      show ps.foldl _ (processPathItem p.1 p.2 init) = _
      rw [ih]
      simp only [docSeq, List.flatMap_cons, List.foldl_append, List.foldl_map]
      rfl
  exact hgen []

theorem foldl_mapLookup_lastWrite (id : String) (hne : id ≠ "")
    (seq : List (String × String × Option Operation)) :
    ∀ init : Table,
      mapLookup (seq.foldl
          (fun ops t => processOperation t.1 t.2.1 t.2.2 ops) init) id
        = (lastWrite id seq).or (mapLookup init id) := by
  induction seq with
  | nil =>
    intro init
    simp [lastWrite, usableOps]
  | cons t ts ih =>
    intro init
    obtain ⟨p, m, o⟩ := t
    rw [List.foldl_cons]
    cases o with
    | none =>
      show mapLookup (ts.foldl _ (processOperation p m none init)) id = _
      rw [ih]
      have hsame : lastWrite id ((p, m, none) :: ts) = lastWrite id ts := by
        simp [lastWrite, usableOps, List.filterMap_cons]
      rw [hsame]
      rfl
    | some op =>
      by_cases hid : (op.operationID == id) = true
      · have hopid : op.operationID = id := eq_of_beq hid
        show mapLookup (ts.foldl _ (processOperation p m (some op) init)) id = _
        rw [ih, processOperation_some p m op init (by rw [hopid]; exact hne)]
        have hcons : usableOps id ((p, m, some op) :: ts)
            = (p, m, op) :: usableOps id ts := by
          simp [usableOps, List.filterMap_cons, hopid]
        rcases hu : usableOps id ts with _ | ⟨u, us⟩
        · have hlw : lastWrite id ts = none := by
            simp [lastWrite, hu]
          have hlw' : lastWrite id ((p, m, some op) :: ts)
              = some (deriveInfo p m op) := by
            simp [lastWrite, hcons, hu]
          rw [hlw, hlw', Option.none_or, hopid,
            mapLookup_insert_self init id (deriveInfo p m op)]
          rfl
        · have hlw : lastWrite id ((p, m, some op) :: ts) = lastWrite id ts := by
            simp only [lastWrite, hcons, hu, List.getLast?_cons_cons]
          rw [hlw]
          have hne' : lastWrite id ts ≠ none := by
            simp [lastWrite, hu]
          rcases hl : lastWrite id ts with _ | w
          · exact absurd hl hne'
          · rfl
      · show mapLookup (ts.foldl _ (processOperation p m (some op) init)) id = _
        rw [ih]
        have hlook : mapLookup (processOperation p m (some op) init) id
            = mapLookup init id := by
          by_cases hempty : (op.operationID == "") = true
          · simp only [processOperation]
            rw [if_pos hempty]
          · rw [processOperation_some p m op init (by simpa using hempty)]
            exact mapLookup_insert_ne init op.operationID id _
              (fun he => by rw [he] at hid; simp at hid)
        rw [hlook]
        have hne2 : ¬op.operationID = id := fun he => hid (by rw [he]; simp)
        have hsame : lastWrite id ((p, m, some op) :: ts) = lastWrite id ts := by
          simp [lastWrite, usableOps, List.filterMap_cons, hne2]
        rw [hsame]

/-! ### Concrete sample inputs (the spec's §8 example scenario) -/

/-- `GET /books`, operation `ListBooks`: query parameters, no request
body, no summary or description text. -/
def listBooksOp : Operation :=
  { operationID := "ListBooks", summary := "", description := "",
    requestBody := none }

/-- `POST /books`, operation `AddBook`: JSON request body, no summary or
description text. -/
def addBookOp : Operation :=
  { operationID := "AddBook", summary := "", description := "",
    requestBody := some (some ()) }

/-- A document with one path `/books` carrying `GET ListBooks` and
`POST AddBook`. -/
def sampleDoc : List (String × PathItem) :=
  [("/books", { get := some listBooksOp, post := some addBookOp })]

/-- An operation definition lacking an identifier. -/
def emptyIdOp : Operation :=
  { operationID := "", summary := "s", description := "d",
    requestBody := none }

/-- A document whose only identified operation sits in the `Trace` slot:
the seven inspected slots yield nothing usable. -/
def degenerateDoc : List (String × PathItem) :=
  [("/x", { get := some emptyIdOp, trace := some listBooksOp })]

/-- `GET /things` and `POST /things` sharing the identifier `Thing`. -/
def getThingOp : Operation :=
  { operationID := "Thing", summary := "get a thing", description := "",
    requestBody := none }

/-- See `getThingOp`: the later definition under the same identifier. -/
def postThingOp : Operation :=
  { operationID := "Thing", summary := "make a thing", description := "",
    requestBody := some (some ()) }

/-- A document in which the identifier `Thing` appears under two methods
of the same path. -/
def dupDoc : List (String × PathItem) :=
  [("/things", { get := some getThingOp, post := some postThingOp })]

/-- One possible Go map iteration order: the model's insertion order. -/
def iterIns : Table → List OperationInfo := fun ops => ops.map Prod.snd

/-- Another possible Go map iteration order: the reverse of insertion
order.  Go guarantees neither. -/
def iterRev : Table → List OperationInfo :=
  fun ops => (ops.map Prod.snd).reverse

/-! ### Claim theorems -/

/-- C2: an operation definition with a non-null request body resolves to
`HasRequestBody = true`, parameter type `<id>JSONRequestBody`, and a
by-value argument at the synthesized call site; one without a request
body resolves to `HasRequestBody = false`, type `<id>Params`, and a
by-reference (address-of) argument. -/
theorem body_parameter_fork (path method : String) (op : Operation)
    (ops : Table) (hid : op.operationID ≠ "") :
    ∃ info,
      mapLookup (processOperation path method (some op) ops) op.operationID
        = some info ∧
      ((∃ rb, op.requestBody = some (some rb)) →
        info.HasRequestBody = true ∧
        info.ParameterType = op.operationID ++ "JSONRequestBody" ∧
        (registrationFor info).argPass = ArgPass.byValue) ∧
      ((¬∃ rb, op.requestBody = some (some rb)) →
        info.HasRequestBody = false ∧
        info.ParameterType = op.operationID ++ "Params" ∧
        (registrationFor info).argPass = ArgPass.byRef) := by
  refine ⟨deriveInfo path method op, ?_, ?_, ?_⟩
  · rw [processOperation_some path method op ops hid]
    exact mapLookup_insert_self ops op.operationID _
  · rintro ⟨rb, hrb⟩
    simp [deriveInfo, registrationFor, hrb]
  · intro hno
    rcases hrb : op.requestBody with _ | rb1
    · simp [deriveInfo, registrationFor, hrb]
    · rcases rb1 with _ | rb2
      · simp [deriveInfo, registrationFor, hrb]
      · exact absurd ⟨rb2, hrb⟩ hno

/-- C2 witness: the fork evaluated at `AddBook` (request body present). -/
theorem body_parameter_fork_witness :
    ∃ info,
      mapLookup (processOperation "/books" "POST" (some addBookOp) [])
          addBookOp.operationID = some info ∧
      ((∃ rb, addBookOp.requestBody = some (some rb)) →
        info.HasRequestBody = true ∧
        info.ParameterType = addBookOp.operationID ++ "JSONRequestBody" ∧
        (registrationFor info).argPass = ArgPass.byValue) ∧
      ((¬∃ rb, addBookOp.requestBody = some (some rb)) →
        info.HasRequestBody = false ∧
        info.ParameterType = addBookOp.operationID ++ "Params" ∧
        (registrationFor info).argPass = ArgPass.byRef) :=
  body_parameter_fork "/books" "POST" addBookOp [] (by decide)

/-- C3: when the summary text is absent the stored summary is
`"<METHOD> <path>"`, and when the description text is absent the stored
description equals the (possibly fallback) summary. -/
theorem fallback_text (path method : String) (op : Operation) (ops : Table)
    (hid : op.operationID ≠ "") :
    ∃ info,
      mapLookup (processOperation path method (some op) ops) op.operationID
        = some info ∧
      (op.summary = "" → info.Summary = method ++ " " ++ path) ∧
      (op.description = "" → info.Description = info.Summary) := by
  refine ⟨deriveInfo path method op, ?_, ?_, ?_⟩
  · rw [processOperation_some path method op ops hid]
    exact mapLookup_insert_self ops op.operationID _
  · intro hs
    simp [deriveInfo, hs]
  · intro hd
    simp [deriveInfo, hd]

/-- C3 witness: `ListBooks` under `GET /books` with no summary or
description text. -/
theorem fallback_text_witness :
    ∃ info,
      mapLookup (processOperation "/books" "GET" (some listBooksOp) [])
          listBooksOp.operationID = some info ∧
      (listBooksOp.summary = "" → info.Summary = "GET" ++ " " ++ "/books") ∧
      (listBooksOp.description = "" → info.Description = info.Summary) :=
  fallback_text "/books" "GET" listBooksOp [] (by decide)

/-- C5: when the operation table is empty after processing all paths, the
run fails with the descriptive error of part_001 line 164, returning
before `f.Save` runs, so no output file is written. -/
theorem empty_table_rejected (cfg : CLIConfig)
    (doc : List (String × PathItem)) (mapOrder : Table → List OperationInfo)
    (h : extractOperations doc = []) :
    generateMCPServer cfg doc mapOrder
      = Except.error "no valid operations found in the OpenAPI spec" := by
  simp only [generateMCPServer, h]
  rfl

/-- C5 witness: a document whose slots yield no usable operation. -/
theorem empty_table_rejected_witness :
    generateMCPServer defaultCLI degenerateDoc iterIns
      = Except.error "no valid operations found in the OpenAPI spec" :=
  empty_table_rejected defaultCLI degenerateDoc iterIns (by decide)

/-- C10: every extraction step keeps the table invariant: each stored
record has non-empty `ID` equal to its key, non-empty `Summary` and
`Description`, and `ParameterType` equal to `ID ++ "JSONRequestBody"`
when `HasRequestBody` and `ID ++ "Params"` otherwise; consequently every
fully extracted table satisfies it. -/
theorem table_invariant (path method : String) (o : Option Operation)
    (ops : Table) (doc : List (String × PathItem)) :
    (TableInv ops → TableInv (processOperation path method o ops)) ∧
    TableInv (extractOperations doc) :=
  ⟨TableInv_processOperation path method o ops, TableInv_extract doc⟩

/-- C10 witness: one step on the empty table, at `GET /books`. -/
theorem table_invariant_witness :
    TableInv (processOperation "/books" "GET" (some listBooksOp) []) :=
  (table_invariant "/books" "GET" (some listBooksOp) [] sampleDoc).1
    (fun _ _ h => absurd h (List.not_mem_nil _))

/-- C1: the synthesizer emits the per-operation registration statements in
the Go map's native iteration order (part_001 line 224) with no sorting,
so the output is *not* deterministic: for the sample document, two runs
that differ only in the (unspecified) map iteration order — here,
insertion order versus its reverse, which enumerate the same table — both
succeed yet serialize to different bytes.  The claim (and §4.3 of the
spec, which mandates a deterministic order) is violated by the code. -/
theorem generator_output_depends_on_map_order :
    (iterRev (extractOperations sampleDoc)).Perm
        (iterIns (extractOperations sampleDoc)) ∧
    generateMCPServer defaultCLI sampleDoc iterIns
      = Except.ok (synthesize defaultCLI (iterIns (extractOperations sampleDoc))) ∧
    generateMCPServer defaultCLI sampleDoc iterRev
      = Except.ok (synthesize defaultCLI (iterRev (extractOperations sampleDoc))) ∧
    renderFile (synthesize defaultCLI (iterIns (extractOperations sampleDoc)))
      ≠ renderFile (synthesize defaultCLI (iterRev (extractOperations sampleDoc))) := by
  refine ⟨List.reverse_perm _, rfl, rfl, ?_⟩
  decide

/-- C6: duplicated identifiers do not make extraction fail; after the
whole document is processed the table holds exactly one record for the
identifier, the one derived from the last definition carrying it in
processing order (last write wins). -/
theorem duplicate_ids_last_write_wins (doc : List (String × PathItem))
    (id p m : String) (op : Operation) (hne : id ≠ "")
    (hlast : (usableOps id (docSeq doc)).getLast? = some (p, m, op)) :
    mapLookup (extractOperations doc) id = some (deriveInfo p m op) ∧
    (extractOperations doc).countP (fun e => e.1 == id) = 1 ∧
    extractOperations doc ≠ [] := by
  have hlook : mapLookup (extractOperations doc) id
      = some (deriveInfo p m op) := by
    rw [extract_eq_docSeq_foldl,
      foldl_mapLookup_lastWrite id hne (docSeq doc) [], lastWrite, hlast]
    rfl
  refine ⟨hlook, ?_, ?_⟩
  · exact countP_key_eq_one _ id (keysNodup_extract doc)
      (mapHasKey_of_lookup_some _ id _ hlook)
  · intro hnil
    rw [hnil] at hlook
    simp [mapLookup] at hlook

/-- C6 witness: `Thing` defined under both `GET /things` and
`POST /things`; the stored record is the one from `POST`, processed
last. -/
theorem duplicate_ids_last_write_wins_witness :
    mapLookup (extractOperations dupDoc) "Thing"
      = some (deriveInfo "/things" "POST" postThingOp) ∧
    (extractOperations dupDoc).countP (fun e => e.1 == "Thing") = 1 ∧
    extractOperations dupDoc ≠ [] :=
  duplicate_ids_last_write_wins dupDoc "Thing" "/things" "POST" postThingOp
    (by decide) (by decide)

theorem countP_registrations (T : Table) (l : List OperationInfo)
    (id : String) (hperm : l.Perm (T.map Prod.snd)) (hinv : TableInv T) :
    (l.map registrationFor).countP (fun r => r.toolName == id)
      = T.countP (fun p => p.1 == id) := by
  rw [List.countP_map, hperm.countP_eq, List.countP_map]
  apply List.countP_congr
  intro q hq
  have hmem : (q.1, q.2) ∈ T := hq
  have hID : q.2.ID = q.1 := (hinv q.1 q.2 hmem).1
  show ((registrationFor q.2).toolName == id) = true ↔ (q.1 == id) = true
  simp [registrationFor, hID]

/-- C4: for every non-empty operation identifier present in the document
under the seven supported methods, exactly one registration statement
with that tool name appears in the synthesized output — duplicates
collapse to one — and no registration carries an empty tool name, any
map iteration order being permitted. -/
theorem registration_completeness (cfg : CLIConfig)
    (doc : List (String × PathItem)) (mapOrder : Table → List OperationInfo)
    (id : String)
    (hperm : (mapOrder (extractOperations doc)).Perm
      ((extractOperations doc).map Prod.snd)) :
    (id ≠ "" → idPresent doc id = true →
      (synthesize cfg (mapOrder (extractOperations doc))).registrations.countP
        (fun r => r.toolName == id) = 1) ∧
    (synthesize cfg (mapOrder (extractOperations doc))).registrations.countP
      (fun r => r.toolName == "") = 0 := by
  constructor
  · intro hne hpres
    show ((mapOrder (extractOperations doc)).map registrationFor).countP
      (fun r => r.toolName == id) = 1
    rw [countP_registrations _ _ id hperm (TableInv_extract doc)]
    exact countP_key_eq_one _ id (keysNodup_extract doc)
      (mapHasKey_extract_present doc id hne hpres)
  · show ((mapOrder (extractOperations doc)).map registrationFor).countP
      (fun r => r.toolName == "") = 0
    rw [countP_registrations _ _ "" hperm (TableInv_extract doc)]
    rw [List.countP_eq_zero]
    intro q hq hqk
    have hinvq := (TableInv_extract doc) q.1 q.2 hq
    exact hinvq.2.1 (hinvq.1.trans (eq_of_beq hqk))

/-- C4 witness: in `dupDoc` the identifier `Thing` appears under two
methods yet gets exactly one registration, under the reversed map
iteration order. -/
theorem registration_completeness_witness :
    ("Thing" ≠ "" → idPresent dupDoc "Thing" = true →
      (synthesize defaultCLI (iterRev (extractOperations dupDoc))).registrations.countP
        (fun r => r.toolName == "Thing") = 1) ∧
    (synthesize defaultCLI (iterRev (extractOperations dupDoc))).registrations.countP
      (fun r => r.toolName == "") = 0 :=
  registration_completeness defaultCLI dupDoc iterRev "Thing"
    (List.reverse_perm _)

/-- C8: extraction inspects exactly the seven standard method slots of a
path item: the `Trace` and `Connect` slots never influence the table, and
an identified operation in any of the seven slots lands in it. -/
theorem seven_methods_only (path : String) (item : PathItem) (ops : Table) :
    (∀ t c : Option Operation,
      processPathItem path { item with trace := t, connect := c } ops
        = processPathItem path item ops) ∧
    (∀ (m : String) (op : Operation), (m, some op) ∈ methodSlots item →
      op.operationID ≠ "" →
      mapHasKey (processPathItem path item ops) op.operationID = true) := by
  constructor
  · intro t c
    rfl
  · intro m op hmem hne
    rw [processPathItem_eq_foldl]
    apply mapHasKey_foldl_slots_present path _ ops _ hne
    left
    rw [List.any_eq_true]
    exact ⟨(m, some op), hmem, by simp [slotHasId]⟩

/-- C8 witness: in `degenerateDoc`'s path item, the `ListBooks` operation
sits in the `Trace` slot only and changing that slot never changes the
result, while the identified `Thing` operation in the `GET` slot of
`dupDoc`'s item lands in the table. -/
theorem seven_methods_only_witness :
    (processPathItem "/x"
        { get := some emptyIdOp, trace := some listBooksOp } []
      = processPathItem "/x" { get := some emptyIdOp } []) ∧
    mapHasKey (processPathItem "/things"
        { get := some getThingOp, post := some postThingOp } [])
      "Thing" = true :=
  ⟨(seven_methods_only "/x" { get := some emptyIdOp } []).1
      (some listBooksOp) none,
    (seven_methods_only "/things"
        { get := some getThingOp, post := some postThingOp } []).2
      "GET" getThingOp (by decide) (by decide)⟩

theorem string_append_right_cancel (a b c : String) (h : a ++ c = b ++ c) :
    a = b := by
  have hd : a.data ++ c.data = b.data ++ c.data := by
    rw [← String.data_append, ← String.data_append, h]
  exact String.ext (List.append_cancel_right hd)

theorem params_ne_jsonRequestBody (a b : String) :
    a ++ "Params" ≠ b ++ "JSONRequestBody" := by
  intro h
  have hd : (a ++ "Params").data.reverse.head?
      = (b ++ "JSONRequestBody").data.reverse.head? := by rw [h]
  rw [String.data_append, String.data_append, List.reverse_append,
    List.reverse_append] at hd
  have h1 : ("Params".data).reverse = 's' :: ['m', 'a', 'r', 'a', 'P'] := rfl
  have h2 : ("JSONRequestBody".data).reverse
      = 'y' :: ['d', 'o', 'B', 't', 's', 'e', 'u', 'q', 'e', 'R', 'N',
          'O', 'S', 'J'] := rfl
  rw [h1, h2, List.cons_append, List.cons_append] at hd
  simp at hd

/-- The configuration with the client-import field missing (empty). -/
def missingImportCLI : CLIConfig :=
  { defaultCLI with ClientImport := "" }

/-- C7 counterexample: with a required configuration field missing (the
client import path is empty) and a document holding one valid operation,
`generateMCPServer` succeeds and produces output instead of failing: the
configuration is never validated. -/
theorem synthesizer_ignores_missing_config_field :
    missingImportCLI.ClientImport = "" ∧
    generateMCPServer missingImportCLI sampleDoc iterIns
      = Except.ok (synthesize missingImportCLI
          (iterIns (extractOperations sampleDoc))) :=
  ⟨rfl, rfl⟩

/-- C7 amended: the synthesizer fails — before any file is written —
exactly when the operation table is empty; no two table entries can
resolve to the same generated symbol name, the table being keyed by
identifier and the identifier-to-symbol mapping injective, so the
collision case cannot arise; and missing configuration fields are not
checked (see the counterexample). -/
theorem synthesis_failure_modes (cfg : CLIConfig)
    (doc : List (String × PathItem)) (mapOrder : Table → List OperationInfo) :
    (extractOperations doc = [] →
      generateMCPServer cfg doc mapOrder
        = Except.error "no valid operations found in the OpenAPI spec") ∧
    (extractOperations doc ≠ [] →
      generateMCPServer cfg doc mapOrder
        = Except.ok (synthesize cfg (mapOrder (extractOperations doc)))) ∧
    (∀ k1 v1 k2 v2, (k1, v1) ∈ extractOperations doc →
      (k2, v2) ∈ extractOperations doc → k1 ≠ k2 →
      (registrationFor v1).toolName ≠ (registrationFor v2).toolName ∧
      (registrationFor v1).callMethod ≠ (registrationFor v2).callMethod ∧
      (registrationFor v1).paramType ≠ (registrationFor v2).paramType) := by
  refine ⟨?_, ?_, ?_⟩
  · intro h
    simp only [generateMCPServer, h]
    rfl
  · intro h
    have hlen : ((extractOperations doc).length == 0) = false := by
      simpa using h
    simp only [generateMCPServer, hlen]
    rfl
  · intro k1 v1 k2 v2 h1 h2 hk
    have i1 := TableInv_extract doc k1 v1 h1
    have i2 := TableInv_extract doc k2 v2 h2
    have hID1 : v1.ID = k1 := i1.1
    have hID2 : v2.ID = k2 := i2.1
    have hIDne : v1.ID ≠ v2.ID := by
      rw [hID1, hID2]; exact hk
    refine ⟨?_, ?_, ?_⟩
    · show v1.ID ≠ v2.ID
      exact hIDne
    · show v1.ID ++ "WithResponse" ≠ v2.ID ++ "WithResponse"
      intro h
      exact hIDne (string_append_right_cancel _ _ _ h)
    · show v1.ParameterType ≠ v2.ParameterType
      rw [i1.2.2.2.2, i2.2.2.2.2]
      cases hb1 : v1.HasRequestBody <;> cases hb2 : v2.HasRequestBody <;>
        simp only [if_true, if_false, Bool.false_eq_true, if_neg,
          not_false_eq_true]
      · intro h
        exact hIDne (string_append_right_cancel _ _ _ h)
      · intro h
        exact params_ne_jsonRequestBody v1.ID v2.ID h
      · intro h
        exact params_ne_jsonRequestBody v2.ID v1.ID h.symm
      · intro h
        exact hIDne (string_append_right_cancel _ _ _ h)

/-- C7 amended witness: the failure dichotomy and symbol distinctness on
the duplicate-identifier document. -/
theorem synthesis_failure_modes_witness :
    (extractOperations dupDoc = [] →
      generateMCPServer defaultCLI dupDoc iterIns
        = Except.error "no valid operations found in the OpenAPI spec") ∧
    (extractOperations dupDoc ≠ [] →
      generateMCPServer defaultCLI dupDoc iterIns
        = Except.ok (synthesize defaultCLI
            (iterIns (extractOperations dupDoc)))) ∧
    (∀ k1 v1 k2 v2, (k1, v1) ∈ extractOperations dupDoc →
      (k2, v2) ∈ extractOperations dupDoc → k1 ≠ k2 →
      (registrationFor v1).toolName ≠ (registrationFor v2).toolName ∧
      (registrationFor v1).callMethod ≠ (registrationFor v2).callMethod ∧
      (registrationFor v1).paramType ≠ (registrationFor v2).paramType) :=
  synthesis_failure_modes defaultCLI dupDoc iterIns

/-- C9 counterexample: at HTTP status 201 — a success status — the
emitted handler returns an error result, whereas the claim (error only on
*non-success* statuses, payload otherwise) requires the payload. -/
theorem handler_errors_on_success_status_201 :
    successStatus 201 = true ∧
    handlerBody "AddBook" (RestResult.response 201 "201 Created" "ok")
      = ToolOutcome.errorResult "error on AddBook: 201 Created" ∧
    specHandlerBody "AddBook" (RestResult.response 201 "201 Created" "ok")
      = ToolOutcome.textResult "ok" := by
  refine ⟨rfl, ?_, ?_⟩ <;> decide

/-- C9 amended: the emitted handler returns an error result wrapping the
identifier and the error text on transport error, an error result
wrapping the identifier and the status text on any status other than
exactly 200 (success statuses such as 201 included), and the raw payload
as the textual tool result on status 200. -/
theorem handler_semantics (id errText statusText body : String)
    (status : Nat) (hne : status ≠ 200) :
    handlerBody id (RestResult.transportError errText)
      = ToolOutcome.errorResult ("error calling " ++ id ++ ": " ++ errText) ∧
    handlerBody id (RestResult.response status statusText body)
      = ToolOutcome.errorResult ("error on " ++ id ++ ": " ++ statusText) ∧
    handlerBody id (RestResult.response 200 statusText body)
      = ToolOutcome.textResult body := by
  refine ⟨rfl, ?_, rfl⟩
  simp only [handlerBody]
  rw [if_pos (by simpa using hne)]

/-- C9 amended witness: the handler for `ListBooks` evaluated at a
transport error, at status 500, and at status 200. -/
theorem handler_semantics_witness :
    handlerBody "ListBooks" (RestResult.transportError "conn refused")
      = ToolOutcome.errorResult
          ("error calling " ++ "ListBooks" ++ ": " ++ "conn refused") ∧
    handlerBody "ListBooks"
        (RestResult.response 500 "500 Internal Server Error" "boom")
      = ToolOutcome.errorResult
          ("error on " ++ "ListBooks" ++ ": " ++ "500 Internal Server Error") ∧
    handlerBody "ListBooks" (RestResult.response 200
        "500 Internal Server Error" "boom")
      = ToolOutcome.textResult "boom" :=
  handler_semantics "ListBooks" "conn refused" "500 Internal Server Error"
    "boom" 500 (by decide)

end GoMcpRest
